import Mathlib

/-!
Verification of the safetensors reader in `qwen_asr_safetensors.c`
(qwen-asr repository).

Shallow embedding conventions:
* C strings / byte buffers are `List Char` resp. `List Nat`; the list holds
  the bytes before the terminating NUL, and `peekC [] = '\x00'` models the
  C code reading the terminator, so `while (**p)` loops stop at the list end
  (and also at an embedded NUL byte, exactly as the C code does).
* Machine integers are `Nat`/`Int`; `size_t` casts and subtraction are taken
  explicitly modulo `2^64` (`toSizeT`, `usub64`).
* Fallible C functions (returning `-1`/`NULL`) become `Option`-valued
  functions.
* Resource acquisition/release (open/close/mmap/munmap/malloc/free) is
  recorded as an explicit event trace (`REv`) read off the C control flow,
  so leak freedom of failure paths is a provable statement.
* The constants `SAFETENSORS_MAX_TENSORS` and `SAFETENSORS_MAX_SHARDS` live
  in the header `qwen_asr_safetensors.h`, which is not part of the sources;
  they are kept as explicit parameters `maxT` / `maxS` (modelled from the
  spec: "a fixed maximum" / "a configured maximum shard count").
The POSIX code paths are modelled (the Windows paths are line-for-line
parallel for everything the claims mention).
-/

namespace QwenST

/-- Reading `**p` in C: the NUL terminator stands for the end of the list. -/
def peekC : List Char → Char
  | [] => '\x00'
  | c :: _ => c

/-- `(*p)++` in C. Advancing at the terminator stays there. -/
def adv : List Char → List Char
  | [] => []
  | _ :: cs => cs

/-- `skip_whitespace` (qwen_asr_safetensors.c:132-134). -/
def skip_whitespace : List Char → List Char
  | [] => []
  | c :: cs =>
    if c = ' ' ∨ c = '\n' ∨ c = '\r' ∨ c = '\t' then skip_whitespace cs else c :: cs

/-- The recurring C step `skip_whitespace(p); if (**p == c) (*p)++;`. -/
def skipThenChar (c : Char) (p : List Char) : List Char :=
  let q := skip_whitespace p
  if peekC q = c then adv q else q

/-- The copy loop of `parse_string` (qwen_asr_safetensors.c:141-153):
`while (**p && **p != '"' && i < max_len - 1)` with escape handling.
`acc` is the output buffer written so far (`i = acc.length`). -/
def parseStringLoop (maxLen : Nat) : List Char → List Char → List Char × List Char
  | acc, [] => (acc, [])
  | acc, c :: cs =>
    if c = '\x00' ∨ c = '"' ∨ maxLen - 1 ≤ acc.length then (acc, c :: cs)
    else if c = '\\' then
      match cs with
      | [] =>
        -- the escape reads the NUL terminator and steps past it
        (acc ++ ['\x00'], [])
      | d :: ds =>
        let o : Char :=
          if d = 'n' then '\n'
          else if d = 't' then '\t'
          else if d = '"' then '"'
          else if d = '\\' then '\\'
          else d
        parseStringLoop maxLen (acc ++ [o]) ds
    else parseStringLoop maxLen (acc ++ [c]) cs

/-- `parse_string` (qwen_asr_safetensors.c:136-158): leading whitespace,
opening quote, bounded copy loop, closing quote. -/
def parse_string (maxLen : Nat) (p : List Char) : Option (List Char × List Char) :=
  let p1 := skip_whitespace p
  if peekC p1 ≠ '"' then none
  else
    let r := parseStringLoop maxLen [] (adv p1)
    if peekC r.2 = '"' then some (r.1, adv r.2) else none

/-- Decimal digit test `**p >= '0' && **p <= '9'` (byte values 48-57). -/
def isDigit (c : Char) : Bool := 48 ≤ c.toNat ∧ c.toNat ≤ 57

/-- The digit-accumulation loop of `parse_int`
(qwen_asr_safetensors.c:165-168): `val = val * 10 + (**p - '0')`. -/
def parseIntLoop : List Char → Int → Int × List Char
  | [], acc => (acc, [])
  | c :: cs, acc =>
    if isDigit c then parseIntLoop cs (acc * 10 + ((c.toNat : Int) - 48))
    else (acc, c :: cs)

/-- `parse_int` (qwen_asr_safetensors.c:160-170). The `int64_t`
accumulator is exact for values below `2^63` (larger literals overflow
signed arithmetic in the C code). -/
def parse_int (p : List Char) : Int × List Char :=
  let p1 := skip_whitespace p
  if peekC p1 = '-' then
    let r := parseIntLoop (adv p1) 0
    (-r.1, r.2)
  else parseIntLoop p1 0

/-- `safetensor_dtype_t`. -/
inductive Dtype
  | F32 | F16 | BF16 | I32 | I64 | BOOL | UNKNOWN
  deriving DecidableEq, Repr

/-- `parse_dtype` (qwen_asr_safetensors.c:172-180). -/
def parse_dtype (s : List Char) : Dtype :=
  if s = "F32".data then .F32
  else if s = "F16".data then .F16
  else if s = "BF16".data then .BF16
  else if s = "I32".data then .I32
  else if s = "I64".data then .I64
  else if s = "BOOL".data then .BOOL
  else .UNKNOWN

/-- The `(size_t)` cast of an `int64_t` value. -/
def toSizeT (i : Int) : Nat := (i % (2 ^ 64 : Int)).toNat

/-- `size_t` subtraction `a - b` (wraps modulo `2^64`). -/
def usub64 (a b : Nat) : Nat := (a + (2 ^ 64 - b % 2 ^ 64)) % 2 ^ 64

/-- `safetensor_t` (fields used by the .c file; `ndim = shape.length`,
which the parser keeps at most 8). -/
structure Tensor where
  name : List Char
  dtype : Dtype
  shape : List Int
  data_offset : Nat
  data_size : Nat
  deriving DecidableEq, Repr

/-- The shape-element loop (qwen_asr_safetensors.c:212-218):
`while (**p && **p != ']' && t->ndim < 8)`.  The loop runs at most
8 iterations because `ndim` is incremented every iteration; `slots`
counts the remaining iterations (`8 - ndim`). -/
def parseShapeLoop : Nat → List Int → List Char → List Int × List Char
  | 0, acc, p => (acc, p)
  | slots + 1, acc, p =>
    if peekC p = '\x00' ∨ peekC p = ']' then (acc, p)
    else
      let p1 := skip_whitespace p
      if peekC p1 = ']' then (acc, p1)
      else
        -- qwen_asr_safetensors.c:215-217: parse the element, skip
        -- whitespace, consume a separating comma if present
        let r := parse_int p1
        parseShapeLoop slots (acc ++ [r.1]) (skipThenChar ',' r.2)

/-- The unknown-value skip loop (qwen_asr_safetensors.c:234-251):
brace/bracket depth counting with string-literal state and backslash
escapes; breaks (without consuming) at a `,` at depth 0 or an unmatched
closing bracket, and stops at the NUL terminator. -/
def skipValue : List Char → Nat → Bool → List Char
  | [], _, _ => []
  | c :: cs, depth, inStr =>
    if c = '\x00' then c :: cs
    else if inStr then
      if c = '\\' ∧ peekC cs ≠ '\x00' then
        match cs with
        | [] => []
        | _ :: ds => skipValue ds depth true
      else if c = '"' then skipValue cs depth false
      else skipValue cs depth true
    else
      if c = '"' then skipValue cs depth true
      else if c = '{' ∨ c = '[' then skipValue cs (depth + 1) false
      else if c = '}' ∨ c = ']' then
        if depth = 0 then c :: cs else skipValue cs (depth - 1) false
      else if c = ',' ∧ depth = 0 then c :: cs
      else skipValue cs depth false

/-- End of one `"key": value` pair inside `parse_tensor_entry`
(qwen_asr_safetensors.c:254-255): `skip_whitespace; if (**p == ',') (*p)++`. -/
def endOfPair (p : List Char) : List Char := skipThenChar ',' p

/-- The per-key value handling of `parse_tensor_entry`
(qwen_asr_safetensors.c:204-252), given the tensor so far, the parsed
key and the position after `skip_whitespace` behind the colon: the
updated tensor and the position after the value, or `none` where the C
code returns `-1`. -/
def entryDispatch (t : Tensor) (key p4 : List Char) : Option (Tensor × List Char) :=
  if key = "dtype".data then
    match parse_string 32 p4 with
    | none => none
    | some (ds, p5) => some ({ t with dtype := parse_dtype ds }, p5)
  else if key = "shape".data then
    if peekC p4 ≠ '[' then none
    else
      let r := parseShapeLoop 8 [] (adv p4)
      let p5 := if peekC r.2 = ']' then adv r.2 else r.2
      some ({ t with shape := r.1 }, p5)
  else if key = "data_offsets".data then
    if peekC p4 ≠ '[' then none
    else
      -- qwen_asr_safetensors.c:223-230: skip ws, start, skip ws, [','],
      -- skip ws, end, skip ws, [']'] (and `parse_int` itself starts by
      -- skipping whitespace)
      let rs := parse_int (skip_whitespace (adv p4))
      let re := parse_int (skip_whitespace (skipThenChar ',' rs.2))
      some ({ t with
              data_offset := toSizeT rs.1
              data_size := usub64 (toSizeT re.1) (toSizeT rs.1) },
        skipThenChar ']' re.2)
  else
    some (t, skipValue p4 0 false)

/-- The key/value loop of `parse_tensor_entry`
(qwen_asr_safetensors.c:192-256).  `fuel` only bounds the number of loop
iterations (each iteration of the C loop consumes input, so
`input length + 1` is always enough); it is not part of the C code. -/
def parseEntryLoop : Nat → Tensor → List Char → Option (Tensor × List Char)
  | 0, _, _ => none
  | fuel + 1, t, p =>
    if peekC p = '\x00' ∨ peekC p = '}' then
      some (t, if peekC p = '}' then adv p else p)
    else
      let p1 := skip_whitespace p
      if peekC p1 = '}' then some (t, adv p1)
      else
        match parse_string 64 p1 with
        | none => none
        | some (key, p2) =>
          let p3 := skip_whitespace p2
          if peekC p3 ≠ ':' then none
          else
            match entryDispatch t key (skip_whitespace (adv p3)) with
            | none => none
            | some (t2, p5) => parseEntryLoop fuel t2 (endOfPair p5)

/-- `parse_tensor_entry` (qwen_asr_safetensors.c:182-260).  The caller
(`parse_header`) has already copied the tensor's name into the record. -/
def parse_tensor_entry (name : List Char) (p : List Char) : Option (Tensor × List Char) :=
  let p1 := skip_whitespace p
  if peekC p1 ≠ '{' then none
  else
    parseEntryLoop (p1.length + 1)
      { name := name, dtype := .UNKNOWN, shape := [], data_offset := 0, data_size := 0 }
      (adv p1)

/-- The `__metadata__` skip loop (qwen_asr_safetensors.c:283-291):
counts `{`/`}` (with no string awareness), stopping one past the brace
that returns the depth to 0, or at the NUL terminator. -/
def skipMeta : List Char → Int → List Char
  | [], _ => []
  | c :: cs, depth =>
    if c = '\x00' then c :: cs
    else if c = '{' then skipMeta cs (depth + 1)
    else if c = '}' then
      if depth - 1 = 0 then cs else skipMeta cs (depth - 1)
    else skipMeta cs depth

/-- The entry loop of `parse_header` (qwen_asr_safetensors.c:270-307):
`while (*p && *p != '}' && sf->num_tensors < SAFETENSORS_MAX_TENSORS)`.
Reaching the `maxT` bound stops accepting entries without error. -/
def parseHeaderLoop : Nat → Nat → List Tensor → List Char → Option (List Tensor)
  | 0, _, _, _ => none
  | fuel + 1, maxT, acc, p =>
    if peekC p = '\x00' ∨ peekC p = '}' ∨ ¬ acc.length < maxT then some acc
    else
      let p1 := skip_whitespace p
      if peekC p1 = '}' then some acc
      else
        match parse_string 256 p1 with
        | none => none
        | some (name, p2) =>
          let p3 := skip_whitespace p2
          if peekC p3 ≠ ':' then none
          else
            let p4 := adv p3
            if name = "__metadata__".data then
              parseHeaderLoop fuel maxT acc (endOfPair (skipMeta p4 0))
            else
              match parse_tensor_entry name p4 with
              | none => none
              | some (t, p5) => parseHeaderLoop fuel maxT (acc ++ [t]) (endOfPair p5)

/-- `parse_header` (qwen_asr_safetensors.c:262-310), with the tensor
table bound `maxT` (`SAFETENSORS_MAX_TENSORS`) as a parameter. -/
def parse_header (maxT : Nat) (p : List Char) : Option (List Tensor) :=
  let p1 := skip_whitespace p
  if peekC p1 ≠ '{' then none
  else parseHeaderLoop (p1.length + 1) maxT [] (adv p1)

/-! ## Single-file open (POSIX path, qwen_asr_safetensors.c:374-416) -/

/-- A resource acquisition / release event, read off the C control flow
(`open`/`close`, `mmap`/`munmap`, `calloc`/`strdup`/`malloc`/`free`).
Resources are identified by C-string ids. -/
inductive REv
  | acq (id : List Char)
  | rel (id : List Char)
  deriving DecidableEq, Repr

def fdId : List Char := "fd".data
def mapId : List Char := "mapping".data
def sfId : List Char := "sf-struct".data
def pathId : List Char := "path-string".data
def hdrId : List Char := "header-json".data
def msId : List Char := "ms-struct".data

def countAcq (evs : List REv) (i : List Char) : Nat :=
  (evs.filter (· = REv.acq i)).length

def countRel (evs : List REv) (i : List Char) : Nat :=
  (evs.filter (· = REv.rel i)).length

/-- Ids acquired in the trace and released fewer times than acquired. -/
def unreleasedIds (evs : List REv) : List (List Char) :=
  ((evs.filterMap fun e => match e with | .acq i => some i | .rel _ => none).dedup).filter
    fun i => decide (countRel evs i < countAcq evs i)

/-- The first 8 bytes of the file as a little-endian unsigned 64-bit
header length (`memcpy(&header_size, data, 8)` on a little-endian host). -/
def le64 (bytes : List Nat) : Nat :=
  (bytes.take 8).foldr (fun b acc => b % 256 + 256 * acc) 0

/-- `safetensors_file_t` (fields used by the .c file; the mapped bytes
themselves are the `bytes` argument of `safetensors_open`). -/
structure SFile where
  path : List Char
  file_size : Nat
  header_size : Nat
  tensors : List Tensor
  deriving DecidableEq, Repr

/-- `safetensors_open`, POSIX path (qwen_asr_safetensors.c:374-408),
instrumented with the resource trace.  Environment failures that the
claims do not quantify over (missing file, `fstat`/`mmap`/allocation
failure) are modelled as not occurring; `bytes` is the file content.
Returns the handle (or `none`) and the trace of acquire/release events
in program order. -/
def safetensors_open (maxT : Nat) (path : List Char) (bytes : List Nat) :
    Option SFile × List REv :=
  let t0 := [REv.acq fdId]                     -- fd = open(path, O_RDONLY)
  let file_size := bytes.length                -- fstat
  if file_size < 8 then
    (none, t0 ++ [REv.rel fdId])               -- close(fd); return NULL
  else
    -- data = mmap(...); close(fd)
    let t1 := t0 ++ [REv.acq mapId, REv.rel fdId]
    let header_size := le64 bytes
    if header_size > file_size - 8 then
      (none, t1 ++ [REv.rel mapId])            -- munmap; return NULL
    else
      -- sf = calloc(...); sf->path = strdup(path); sf->header_json = malloc(...)
      let t2 := t1 ++ [REv.acq sfId, REv.acq pathId, REv.acq hdrId]
      let hdr := ((bytes.drop 8).take header_size).map fun b => Char.ofNat (b % 256)
      match parse_header maxT hdr with
      | none =>
        -- safetensors_close(sf): munmap, free path, free header_json, free sf
        (none, t2 ++ [REv.rel mapId, REv.rel pathId, REv.rel hdrId, REv.rel sfId])
      | some ts =>
        (some { path := path, file_size := file_size, header_size := header_size,
                tensors := ts }, t2)

/-- `safetensors_close` (qwen_asr_safetensors.c:410-416): the ids it
releases for a successfully opened handle. -/
def safetensors_close_ids : List (List Char) := [mapId, pathId, hdrId, sfId]

/-! ## DTypeCodec (qwen_asr_safetensors.c:424-460) -/

/-- `safetensor_numel` (qwen_asr_safetensors.c:424-428). -/
def safetensor_numel (t : Tensor) : Int := t.shape.foldl (· * ·) 1

/-- `bf16_to_f32` (qwen_asr_safetensors.c:430-435) at the bit level:
`((uint32_t)bf16) << 16`, the bit pattern of the returned float.
The `% 2^16` is the `uint16_t` range of the argument. -/
def bf16_to_f32 (b : Nat) : Nat := b % 2 ^ 16 * 2 ^ 16

/-- Value of a finite IEEE-754 single-precision bit pattern as a rational
(`none` for the exponent-255 patterns: infinities and NaNs). -/
def f32_decode (bits : Nat) : Option ℚ :=
  let s : Nat := bits / 2 ^ 31 % 2
  let e : Nat := bits / 2 ^ 23 % 2 ^ 8
  let m : Nat := bits % 2 ^ 23
  if e = 255 then none
  else
    let sign : ℚ := if s = 1 then -1 else 1
    if e = 0 then some (sign * (m : ℚ) / 2 ^ 23 / 2 ^ 126)
    else some (sign * ((2 ^ 23 + m : ℚ) / 2 ^ 23) * 2 ^ (e : ℤ) / 2 ^ 127)

/-- The BF16 branch of `safetensors_get_f32`
(qwen_asr_safetensors.c:450-454): elementwise widening of the 16-bit
words to 32-bit float bit patterns. -/
def safetensors_get_f32_bf16 (ws : List Nat) : List Nat := ws.map bf16_to_f32

/-! ## Multi-shard operations (qwen_asr_safetensors.c:493-591) -/

/-- `multi_safetensors_t`: the shard slots assigned so far and the
`num_shards` counter (which the C code sets only after the open loop). -/
structure MSF where
  shards : List SFile
  num_shards : Nat
  deriving DecidableEq, Repr

/-- `multi_safetensors_close` (qwen_asr_safetensors.c:570-576) closes
exactly the first `num_shards` shard slots; this returns those shards. -/
def multi_safetensors_close (ms : MSF) : List SFile := ms.shards.take ms.num_shards

/-- `strcmp(a, b) <= 0` on NUL-free C strings: byte-wise lexicographic
comparison (`strcmp` compares as `unsigned char`). -/
def strle : List Char → List Char → Bool
  | [], _ => true
  | _ :: _, [] => false
  | a :: as, b :: bs =>
    if a.toNat < b.toNat then true
    else if b.toNat < a.toNat then false
    else strle as bs

/-- The sort relation used to model `qsort(..., strcmp)`
(qwen_asr_safetensors.c:554). -/
def strleR (a b : List Char) : Prop := strle a b = true

instance : DecidableRel strleR := fun a b => decEq (strle a b) true

/-- The filename sort of `multi_safetensors_open`
(qwen_asr_safetensors.c:553-554).  `qsort` with `strcmp` produces the
sorted permutation of the collected names; since `strcmp` is a total,
antisymmetric order on NUL-free strings that permutation is unique, so
any sorting algorithm is a faithful model (see the C6 theorems). -/
def sortNames (l : List (List Char)) : List (List Char) := List.insertionSort strleR l

/-- `strstr(hay, needle) != NULL`. -/
def containsSub (needle : List Char) : List Char → Bool
  | [] => needle.isPrefixOf []
  | c :: cs => needle.isPrefixOf (c :: cs) || containsSub needle cs

/-- The shard filename filter (qwen_asr_safetensors.c:537-538):
`strncmp(name, "model-", 6) == 0 && strstr(name, ".safetensors") != NULL`. -/
def isShardName (n : List Char) : Bool :=
  "model-".data.isPrefixOf n && containsSub ".safetensors".data n

/-- `snprintf(path, ..., "%s/%s", dir, name)` (and the fast path's
`"%s/model.safetensors"`). -/
def mkPath (dir name : List Char) : List Char := dir ++ '/' :: name

/-- Opening one path: `open` fails for an absent path, otherwise
`safetensors_open` runs on the file's bytes. `files` is the file system
(path contents). -/
def openPath (maxT : Nat) (files : List Char → Option (List Nat)) (path : List Char) :
    Option SFile :=
  match files path with
  | none => none
  | some bytes => (safetensors_open maxT path bytes).1

/-- The shard-open loop of `multi_safetensors_open`
(qwen_asr_safetensors.c:557-567).  On failure it performs
`multi_safetensors_close(ms)` — which closes only the first
`ms.num_shards` slots — and frees `ms`; `ms.num_shards` is still the
value from `calloc` (0) because the C code assigns it only after the
loop.  The returned trace records one `acq` per successfully opened
shard (identified by its path) and the `rel`s the close performs. -/
def openShardsLoop (maxT : Nat) (files : List Char → Option (List Nat)) (dir : List Char)
    (ms : MSF) : List (List Char) → Option MSF × List REv
  | [] => (some { ms with num_shards := ms.shards.length }, [])
  | n :: rest =>
    match openPath maxT files (mkPath dir n) with
    | some sf =>
      let r := openShardsLoop maxT files dir { ms with shards := ms.shards ++ [sf] } rest
      (r.1, REv.acq (mkPath dir n) :: r.2)
    | none =>
      (none, (multi_safetensors_close ms).map (fun sf => REv.rel sf.path) ++ [REv.rel msId])

/-- `multi_safetensors_open` (qwen_asr_safetensors.c:493-568).
`listing` is the `readdir` sequence (`none`: `opendir` failed);
`maxS` is `SAFETENSORS_MAX_SHARDS`.  Collected names are truncated to
255 characters by the `snprintf` into the 256-byte name buffers. -/
def multi_safetensors_open (maxT maxS : Nat) (files : List Char → Option (List Nat))
    (listing : Option (List (List Char))) (model_dir : List Char) :
    Option MSF × List REv :=
  let t0 := [REv.acq msId]                                    -- ms = calloc(...)
  let fastPath := mkPath model_dir "model.safetensors".data
  match openPath maxT files fastPath with
  | some sf =>
    (some { shards := [sf], num_shards := 1 }, t0 ++ [REv.acq fastPath])
  | none =>
    match listing with
    | none => (none, t0 ++ [REv.rel msId])                    -- opendir failed
    | some entries =>
      let names := ((entries.filter fun n => isShardName n).take maxS).map
        fun n => n.take 255
      if names.isEmpty then (none, t0 ++ [REv.rel msId])      -- NotFound
      else
        let r := openShardsLoop maxT files model_dir ⟨[], 0⟩ (sortNames names)
        (r.1, t0 ++ r.2)

/-- The inner tensor-table scan of `multi_safetensors_find`
(qwen_asr_safetensors.c:583-588): first tensor whose name `strcmp`s
equal. -/
def findInShard (sf : SFile) (name : List Char) : Option Tensor :=
  sf.tensors.find? fun t => t.name = name

/-- The shard scan of `multi_safetensors_find`
(qwen_asr_safetensors.c:581-589): shards in set order. -/
def findLoop : List SFile → List Char → Option (Tensor × SFile)
  | [], _ => none
  | sf :: rest, n =>
    match findInShard sf n with
    | some t => some (t, sf)
    | none => findLoop rest n

/-- `multi_safetensors_find` (qwen_asr_safetensors.c:578-591): scans the
first `num_shards` shard slots in order, each tensor table in parse
order, returning the first exact match and its owning shard. -/
def multi_safetensors_find (ms : MSF) (name : List Char) : Option (Tensor × SFile) :=
  findLoop (ms.shards.take ms.num_shards) name

/-! ## Concrete inputs used by the claim theorems -/

/-- A header declaring a tensor with `data_offsets: [0, 100]`. -/
def c1Header : String := "\x7b\"t\":\x7b\"dtype\":\"F32\",\"shape\":[25],\"data_offsets\":[0,100]\x7d\x7d"

/-- A 115-byte file: 8-byte little-endian length prefix (57), the 57-byte
header above, and a data block of only 50 bytes. -/
def c1Bytes : List Nat :=
  (c1Header.length :: [0, 0, 0, 0, 0, 0, 0]) ++ c1Header.data.map Char.toNat ++
    List.replicate 50 0

/-- The tensor descriptor `safetensors_open` produces for `c1Bytes`. -/
def c1Tensor : Tensor :=
  { name := "t".data, dtype := .F32, shape := [25], data_offset := 0, data_size := 100 }

/-- C1: the spec says `safetensors_open` checks, for every parsed entry,
`data_offset + data_size ≤ file_size − 8 − header_size` and fails with
BoundsError otherwise.  The code performs no such check: on a file whose
header declares `data_offsets: [0, 100]` over a 50-byte data block, open
succeeds and returns a handle whose only descriptor violates the bound
(`0 + 100 > 115 − 8 − 57 = 50`). -/
theorem c1_open_accepts_out_of_bounds_entry :
    (safetensors_open 100 "f".data c1Bytes).1 =
      some { path := "f".data, file_size := 115, header_size := 57,
             tensors := [c1Tensor] } ∧
    c1Tensor.data_offset + c1Tensor.data_size > 115 - 8 - 57 := by
  constructor
  · decide
  · decide

/-! ## C2: shard rollback -/

def c2Dir : List Char := "d".data

def c2Shard1 : List Char := "model-00001-of-00002.safetensors".data

def c2Shard2 : List Char := "model-00002-of-00002.safetensors".data

/-- A minimal valid shard file: length prefix 2 and the header `{}`. -/
def emptyShardBytes : List Nat := (2 :: [0, 0, 0, 0, 0, 0, 0]) ++ "{}".data.map Char.toNat

/-- A file system where the first shard exists (and is valid) and the
second shard is absent, so opening it fails. -/
def c2Files : List Char → Option (List Nat) := fun p =>
  if p = mkPath c2Dir c2Shard1 then some emptyShardBytes else none

/-- C2: the spec says that when opening the i-th shard fails, every
previously opened shard is closed before returning failure.  The code
calls `multi_safetensors_close(ms)` at the failure site, but
`ms->num_shards` is still 0 there (it is assigned only after the loop),
so the close loop `for (i = 0; i < ms->num_shards; i++)` closes nothing:
with two discovered shards of which the second fails to open, discovery
returns failure with the first shard still open (its handle and mapping
are never released). -/
theorem c2_failed_shard_open_leaks_previously_opened_shard :
    (multi_safetensors_open 100 10 c2Files (some [".".data, "..".data, c2Shard2, c2Shard1])
        c2Dir).1 = none ∧
    unreleasedIds
        (multi_safetensors_open 100 10 c2Files (some [".".data, "..".data, c2Shard2, c2Shard1])
          c2Dir).2 = [mkPath c2Dir c2Shard1] := by
  constructor
  · decide
  · decide

/-! ## C7: short files and oversized declared header length -/

/-- C7: `safetensors_open` fails, producing no handle, for every file
smaller than 8 bytes and for every file whose declared little-endian
64-bit header length exceeds `file_size - 8`; in both cases every
resource acquired before the failure is released (the trace has no
unreleased id). -/
theorem c7_open_rejects_small_file_and_oversized_header
    (maxT : Nat) (path : List Char) (bytes : List Nat) :
    (bytes.length < 8 →
      (safetensors_open maxT path bytes).1 = none ∧
      unreleasedIds (safetensors_open maxT path bytes).2 = []) ∧
    (8 ≤ bytes.length → le64 bytes > bytes.length - 8 →
      (safetensors_open maxT path bytes).1 = none ∧
      unreleasedIds (safetensors_open maxT path bytes).2 = []) := by
  constructor
  · intro h
    have he : safetensors_open maxT path bytes = (none, [REv.acq fdId, REv.rel fdId]) := by
      simp [safetensors_open, if_pos h]
    rw [he]
    exact ⟨rfl, by decide⟩
  · intro h8 hbig
    have h1 : ¬ bytes.length < 8 := by omega
    have he : safetensors_open maxT path bytes =
        (none, [REv.acq fdId, REv.acq mapId, REv.rel fdId, REv.rel mapId]) := by
      simp [safetensors_open, if_neg h1, if_pos hbig]
    rw [he]
    exact ⟨rfl, by decide⟩

/-- Witness for C7 at the 3-byte file `[1,2,3]` and the 8-byte file
`[9,0,…,0]` (declared header length 9 > 0 available bytes). -/
theorem c7_open_rejects_witness :
    ((safetensors_open 4 "f".data [1, 2, 3]).1 = none ∧
      unreleasedIds (safetensors_open 4 "f".data [1, 2, 3]).2 = []) ∧
    ((safetensors_open 4 "f".data [9, 0, 0, 0, 0, 0, 0, 0]).1 = none ∧
      unreleasedIds (safetensors_open 4 "f".data [9, 0, 0, 0, 0, 0, 0, 0]).2 = []) :=
  ⟨(c7_open_rejects_small_file_and_oversized_header 4 "f".data [1, 2, 3]).1 (by decide),
   (c7_open_rejects_small_file_and_oversized_header 4 "f".data
      [9, 0, 0, 0, 0, 0, 0, 0]).2 (by decide) (by decide)⟩

/-! ## C9: BF16 → F32 widening -/

/-- C9: for every 16-bit BF16 value, `bf16_to_f32` produces the 32-bit
word obtained by left-shifting the value into the upper half (low 16
bits zero), and reinterpreting that word as an IEEE-754 single maps bit
pattern `0x3F80` to exactly `1.0` and `0x0000` to exactly `0.0`. -/
theorem c9_bf16_widening_exact (b : Nat) (hb : b < 2 ^ 16) :
    bf16_to_f32 b = b * 2 ^ 16 ∧
    bf16_to_f32 b % 2 ^ 16 = 0 ∧
    bf16_to_f32 b < 2 ^ 32 ∧
    f32_decode (bf16_to_f32 0x3F80) = some 1 ∧
    f32_decode (bf16_to_f32 0x0000) = some 0 := by
  refine ⟨?_, ?_, ?_, ?_, ?_⟩
  · show b % 2 ^ 16 * 2 ^ 16 = b * 2 ^ 16
    rw [Nat.mod_eq_of_lt hb]
  · simp [bf16_to_f32, Nat.mul_mod_left]
  · have h : b % 2 ^ 16 < 2 ^ 16 := Nat.mod_lt _ (by norm_num)
    calc bf16_to_f32 b = b % 2 ^ 16 * 2 ^ 16 := rfl
    _ < 2 ^ 16 * 2 ^ 16 := (Nat.mul_lt_mul_right (by norm_num)).mpr h
    _ = 2 ^ 32 := by norm_num
  · norm_num [f32_decode, bf16_to_f32]
  · norm_num [f32_decode, bf16_to_f32]

/-- Witness for C9 at `b = 0x3F80`. -/
theorem c9_bf16_widening_witness :
    bf16_to_f32 0x3F80 = 0x3F80 * 2 ^ 16 ∧
    bf16_to_f32 0x3F80 % 2 ^ 16 = 0 ∧
    bf16_to_f32 0x3F80 < 2 ^ 32 ∧
    f32_decode (bf16_to_f32 0x3F80) = some 1 ∧
    f32_decode (bf16_to_f32 0x0000) = some 0 :=
  c9_bf16_widening_exact 0x3F80 (by decide)

/-! ## C5: discovery fast path and NotFound -/

/-- C5: discovery first tries `{dir}/model.safetensors`; on success the
set has exactly that one shard, whatever else the directory contains
(the listing — including any `model-*` shard files — is never consulted);
if the fast path fails and no directory entry matches the shard pattern,
discovery fails. -/
theorem c5_discovery_fast_path_and_not_found
    (maxT maxS : Nat) (files : List Char → Option (List Nat))
    (listing : Option (List (List Char))) (dir : List Char) :
    (∀ sf, openPath maxT files (mkPath dir "model.safetensors".data) = some sf →
      (multi_safetensors_open maxT maxS files listing dir).1 =
        some { shards := [sf], num_shards := 1 }) ∧
    (openPath maxT files (mkPath dir "model.safetensors".data) = none →
      ∀ entries, listing = some entries →
        entries.filter (fun n => isShardName n) = [] →
        (multi_safetensors_open maxT maxS files listing dir).1 = none) := by
  constructor
  · intro sf h
    simp [multi_safetensors_open, h]
  · intro h entries he hf
    simp [multi_safetensors_open, h, he, hf]

def c5Dir : List Char := "m".data

/-- A file system holding only a valid `m/model.safetensors`. -/
def c5Files : List Char → Option (List Nat) := fun p =>
  if p = mkPath c5Dir "model.safetensors".data then some emptyShardBytes else none

def c5SFile : SFile :=
  { path := mkPath c5Dir "model.safetensors".data, file_size := 10, header_size := 2,
    tensors := [] }

/-- Witness for C5: the fast path wins even with a shard file listed
alongside, and a directory with no matching names yields failure. -/
theorem c5_discovery_witness :
    (multi_safetensors_open 100 10 c5Files (some [c2Shard1]) c5Dir).1 =
      some { shards := [c5SFile], num_shards := 1 } ∧
    (multi_safetensors_open 100 10 (fun _ => none) (some ["x.bin".data, ".".data]) c5Dir).1 =
      none :=
  ⟨(c5_discovery_fast_path_and_not_found 100 10 c5Files (some [c2Shard1]) c5Dir).1
      c5SFile (by decide),
   (c5_discovery_fast_path_and_not_found 100 10 (fun _ => none)
      (some ["x.bin".data, ".".data]) c5Dir).2 (by decide) _ rfl (by decide)⟩

/-! ## C6: deterministic lexicographic shard ordering -/

theorem strle_cons (a b : Char) (as bs : List Char) :
    strle (a :: as) (b :: bs) = true ↔
      (a.toNat < b.toNat ∨ (a.toNat = b.toNat ∧ strle as bs = true)) := by
  simp only [strle]
  split
  · next h => simp [h]
  · next h =>
    split
    · next h2 =>
      simp only [Bool.false_eq_true, false_iff]
      rintro (h3 | ⟨h3, -⟩) <;> omega
    · next h2 =>
      have he : a.toNat = b.toNat := by omega
      simp [he, h]

theorem strle_total : ∀ a b : List Char, strle a b = true ∨ strle b a = true
  | [], _ => Or.inl rfl
  | _ :: _, [] => Or.inr rfl
  | a :: as, b :: bs => by
    rcases Nat.lt_trichotomy a.toNat b.toNat with h | h | h
    · left
      rw [strle_cons]
      exact Or.inl h
    · rcases strle_total as bs with h2 | h2
      · left
        rw [strle_cons]
        exact Or.inr ⟨h, h2⟩
      · right
        rw [strle_cons]
        exact Or.inr ⟨h.symm, h2⟩
    · right
      rw [strle_cons]
      exact Or.inl h

theorem strle_trans : ∀ a b c : List Char,
    strle a b = true → strle b c = true → strle a c = true
  | [], _, _, _, _ => rfl
  | _ :: _, [], _, h1, _ => by simp [strle] at h1
  | _ :: _, _ :: _, [], _, h2 => by simp [strle] at h2
  | a :: as, b :: bs, c :: cs, h1, h2 => by
    rw [strle_cons] at h1 h2 ⊢
    rcases h1 with h1 | ⟨he1, h1⟩ <;> rcases h2 with h2 | ⟨he2, h2⟩
    · exact Or.inl (by omega)
    · exact Or.inl (by omega)
    · exact Or.inl (by omega)
    · exact Or.inr ⟨by omega, strle_trans as bs cs h1 h2⟩

theorem char_toNat_inj {a b : Char} (h : a.toNat = b.toNat) : a = b := by
  have h2 := congrArg Char.ofNat h
  rwa [Char.ofNat_toNat, Char.ofNat_toNat] at h2

theorem strle_antisymm : ∀ a b : List Char,
    strle a b = true → strle b a = true → a = b
  | [], [], _, _ => rfl
  | [], _ :: _, _, h2 => by simp [strle] at h2
  | _ :: _, [], h1, _ => by simp [strle] at h1
  | a :: as, b :: bs, h1, h2 => by
    rw [strle_cons] at h1 h2
    rcases h1 with h1 | ⟨he1, h1⟩
    · rcases h2 with h2 | ⟨he2, h2⟩ <;> omega
    · rcases h2 with h2 | ⟨he2, h2⟩
      · omega
      · rw [char_toNat_inj he1, strle_antisymm as bs h1 h2]

instance : IsTotal (List Char) strleR := ⟨strle_total⟩

instance : IsTrans (List Char) strleR := ⟨strle_trans⟩

instance : IsAntisymm (List Char) strleR := ⟨strle_antisymm⟩

/-- Order of the shards appended by the open loop: a successful loop run
opens the given names in exactly the given order (paths of the resulting
shard slots follow the name list). -/
theorem openShardsLoop_order (maxT : Nat) (files : List Char → Option (List Nat))
    (dir : List Char) :
    ∀ (ns : List (List Char)) (ms0 : MSF) (ms : MSF),
      (openShardsLoop maxT files dir ms0 ns).1 = some ms →
      ms.shards.map (fun sf => sf.path) =
        ms0.shards.map (fun sf => sf.path) ++ ns.map (mkPath dir)
  | [], ms0, ms => by
    intro h
    simp only [openShardsLoop] at h
    cases h
    simp
  | n :: rest, ms0, ms => by
    intro h
    simp only [openShardsLoop] at h
    cases hop : openPath maxT files (mkPath dir n) with
    | none => rw [hop] at h; simp at h
    | some sf =>
      rw [hop] at h
      simp only at h
      have := openShardsLoop_order maxT files dir rest
        { ms0 with shards := ms0.shards ++ [sf] } ms h
      simp only [List.map_append, List.map_cons, List.map_nil] at this
      simp [this]
      have hp : sf.path = mkPath dir n := by
        simp only [openPath] at hop
        cases hf : files (mkPath dir n) with
        | none => rw [hf] at hop; simp at hop
        | some bytes =>
          rw [hf] at hop
          simp only [safetensors_open] at hop
          split at hop
          · simp at hop
          · split at hop
            · simp at hop
            · split at hop
              · simp at hop
              · cases hop
                rfl
      simp [hp]

/-- C6: the shard filenames collected from the directory are sorted by
byte-wise lexicographic comparison before opening: the sort result is a
sorted permutation of the collected names and is the same for any two
listings that are permutations of each other, and the open loop then
opens shards in exactly that order. -/
theorem c6_shard_order_deterministic (l1 l2 : List (List Char)) (hp : l1.Perm l2) :
    sortNames l1 = sortNames l2 ∧
    (sortNames l1).Sorted strleR ∧
    (sortNames l1).Perm l1 ∧
    (∀ (maxT : Nat) (files : List Char → Option (List Nat)) (dir : List Char) (ms : MSF),
      (openShardsLoop maxT files dir ⟨[], 0⟩ (sortNames l1)).1 = some ms →
      ms.shards.map (fun sf => sf.path) = (sortNames l1).map (mkPath dir)) := by
  refine ⟨?_, List.sorted_insertionSort strleR l1, List.perm_insertionSort strleR l1, ?_⟩
  · exact List.eq_of_perm_of_sorted
      (((List.perm_insertionSort strleR l1).trans hp).trans
        (List.perm_insertionSort strleR l2).symm)
      (List.sorted_insertionSort strleR l1)
      (List.sorted_insertionSort strleR l2)
  · intro maxT files dir ms h
    simpa using openShardsLoop_order maxT files dir (sortNames l1) ⟨[], 0⟩ ms h

/-- Witness for C6: the two shard names of the spec's example, listed in
reverse order, sort to `00001` before `00002`. -/
theorem c6_shard_order_witness :
    sortNames [c2Shard2, c2Shard1] = sortNames [c2Shard1, c2Shard2] ∧
    sortNames [c2Shard2, c2Shard1] = [c2Shard1, c2Shard2] := by
  have h := c6_shard_order_deterministic [c2Shard2, c2Shard1] [c2Shard1, c2Shard2]
    (List.Perm.swap c2Shard1 c2Shard2 [])
  exact ⟨h.1, by decide⟩

/-! ## C4: first-match lookup across shards -/

theorem findLoop_none_iff (n : List Char) :
    ∀ shards : List SFile,
      (findLoop shards n = none ↔ ∀ sf ∈ shards, findInShard sf n = none)
  | [] => by simp [findLoop]
  | sf :: rest => by
    simp only [findLoop]
    cases h : findInShard sf n with
    | some t => simp [h]
    | none => simp [h, findLoop_none_iff n rest]

theorem findLoop_skip (n : List Char) :
    ∀ pre rest, (∀ sf' ∈ pre, findInShard sf' n = none) →
      findLoop (pre ++ rest) n = findLoop rest n
  | [], _, _ => rfl
  | sf :: pre, rest, h => by
    simp only [List.cons_append, findLoop, h sf (by simp)]
    exact findLoop_skip n pre rest fun sf' hm => h sf' (by simp [hm])

theorem find?_first {α : Type} (p : α → Bool) :
    ∀ (l1 : List α) (t : α) (l2 : List α), (∀ u ∈ l1, p u = false) → p t = true →
      (l1 ++ t :: l2).find? p = some t
  | [], t, l2, _, hpt => by simp [List.find?, hpt]
  | u :: l1, t, l2, h, hpt => by
    have hu : p u = false := h u (by simp)
    rw [List.cons_append, show List.find? p (u :: (l1 ++ t :: l2)) =
      List.find? p (l1 ++ t :: l2) by simp [List.find?, hu]]
    exact find?_first p l1 t l2 (fun v hv => h v (by simp [hv])) hpt

/-- C4: `multi_safetensors_find` scans shards in set order and, within a
shard, the tensor table in parse order: it returns `none` exactly when no
shard holds the name; when the first shard holding the name is `sf`, it
returns the first matching tensor of `sf` paired with `sf`; the first
match of a tensor table is the head of the matching suffix; and in a
shard list sorted by path (as discovery produces), an earlier shard is
lexicographically at most a later one, so duplicated names resolve to the
lexicographically earlier shard. -/
theorem c4_find_first_match_semantics (ms : MSF) (n : List Char)
    (hn : ms.num_shards = ms.shards.length) :
    (multi_safetensors_find ms n = none ↔
      ∀ sf ∈ ms.shards, ∀ t ∈ sf.tensors, t.name ≠ n) ∧
    (∀ pre sf post, ms.shards = pre ++ sf :: post →
      (∀ sf' ∈ pre, findInShard sf' n = none) →
      ∀ t, findInShard sf n = some t →
      multi_safetensors_find ms n = some (t, sf)) ∧
    (∀ sf : SFile, ∀ tpre t tpost, sf.tensors = tpre ++ t :: tpost → t.name = n →
      (∀ u ∈ tpre, u.name ≠ n) → findInShard sf n = some t) ∧
    (∀ pre sf mid sf' post, ms.shards = pre ++ sf :: mid ++ sf' :: post →
      ms.shards.Pairwise (fun a b => strle a.path b.path = true) →
      strle sf.path sf'.path = true) := by
  have hfind : multi_safetensors_find ms n = findLoop ms.shards n := by
    unfold multi_safetensors_find
    rw [hn, List.take_length]
  refine ⟨?_, ?_, ?_, ?_⟩
  · rw [hfind, findLoop_none_iff]
    apply forall_congr'
    intro sf
    apply imp_congr_right
    intro _
    simp [findInShard, List.find?_eq_none]
  · intro pre sf post hdec hpre t ht
    rw [hfind, hdec, findLoop_skip n pre _ hpre]
    simp [findLoop, ht]
  · intro sf tpre t tpost hdec htn hpre
    unfold findInShard
    rw [hdec]
    apply find?_first
    · intro u hu
      simp [hpre u hu]
    · simp [htn]
  · intro pre sf mid sf' post hdec hpw
    rw [hdec] at hpw
    have hsub : List.Sublist [sf, sf'] (pre ++ sf :: (mid ++ sf' :: post)) := by
      have h1 : List.Sublist [sf'] (sf' :: post) := (List.nil_sublist post).cons₂ sf'
      have h2 : List.Sublist [sf'] (mid ++ sf' :: post) :=
        h1.trans (List.sublist_append_right mid _)
      have h3 : List.Sublist [sf, sf'] (sf :: (mid ++ sf' :: post)) := h2.cons₂ sf
      exact h3.trans (List.sublist_append_right pre _)
    simp only [List.cons_append, List.append_assoc] at hpw
    have hpw2 := List.Pairwise.sublist hsub hpw
    exact List.rel_of_pairwise_cons hpw2 (by simp)

def c4Tensor1 : Tensor :=
  { name := "w".data, dtype := .F32, shape := [1], data_offset := 0, data_size := 4 }

def c4Tensor2 : Tensor :=
  { name := "w".data, dtype := .BF16, shape := [2], data_offset := 8, data_size := 4 }

def c4ShardA : SFile :=
  { path := "d/model-00001-of-00002.safetensors".data, file_size := 100, header_size := 40,
    tensors := [c4Tensor1] }

def c4ShardB : SFile :=
  { path := "d/model-00002-of-00002.safetensors".data, file_size := 100, header_size := 40,
    tensors := [c4Tensor2] }

def c4Set : MSF := { shards := [c4ShardA, c4ShardB], num_shards := 2 }

/-- Witness for C4: the name `w` present in both shards resolves to the
first (lexicographically earlier) shard's instance, and an absent name
yields `none`. -/
theorem c4_find_witness :
    multi_safetensors_find c4Set "w".data = some (c4Tensor1, c4ShardA) ∧
    multi_safetensors_find c4Set "zz".data = none :=
  ⟨(c4_find_first_match_semantics c4Set "w".data (by decide)).2.1
      [] c4ShardA [c4ShardB] rfl (by decide) c4Tensor1 (by decide),
   (c4_find_first_match_semantics c4Set "zz".data (by decide)).1.mpr (by decide)⟩

/-! ## Shared parsing lemmas for the universal claims -/

theorem skip_whitespace_cons (c : Char) (cs : List Char)
    (h : ¬(c = ' ' ∨ c = '\n' ∨ c = '\r' ∨ c = '\t')) :
    skip_whitespace (c :: cs) = c :: cs := by
  simp only [skip_whitespace, if_neg h]

theorem isDigit_toNat {c : Char} (h : isDigit c = true) :
    48 ≤ c.toNat ∧ c.toNat ≤ 57 := by
  simpa [isDigit] using h

theorem isDigit_ne {c : Char} (h : isDigit c = true) :
    c ≠ '\x00' ∧ c ≠ '"' ∧ c ≠ '\\' ∧ c ≠ '{' ∧ c ≠ '}' ∧ c ≠ '[' ∧ c ≠ ']' ∧
    c ≠ ',' ∧ c ≠ ':' ∧ c ≠ '-' ∧ ¬(c = ' ' ∨ c = '\n' ∨ c = '\r' ∨ c = '\t') := by
  have hb := isDigit_toNat h
  refine ⟨?_, ?_, ?_, ?_, ?_, ?_, ?_, ?_, ?_, ?_, ?_⟩ <;>
    first
      | (rintro rfl; revert hb; decide)
      | (rintro (rfl | rfl | rfl | rfl) <;> revert hb <;> decide)

/-- The bounded copy loop of `parse_string` on a serialized string whose
characters need no escaping. -/
theorem parseStringLoop_plain (maxLen : Nat) :
    ∀ (key acc rest : List Char),
      (∀ c ∈ key, c ≠ '\x00' ∧ c ≠ '"' ∧ c ≠ '\\') →
      acc.length + key.length ≤ maxLen - 1 →
      parseStringLoop maxLen acc (key ++ '"' :: rest) = (acc ++ key, '"' :: rest)
  | [], acc, rest, _, _ => by
    rw [parseStringLoop.eq_def]
    simp
  | c :: key, acc, rest, hk, hlen => by
    have hc := hk c (by simp)
    have hlt : acc.length < maxLen - 1 := by
      simp only [List.length_cons] at hlen
      omega
    rw [List.cons_append]
    rw [show parseStringLoop maxLen acc (c :: (key ++ '"' :: rest)) =
        parseStringLoop maxLen (acc ++ [c]) (key ++ '"' :: rest) by
      rw [parseStringLoop.eq_def]
      simp [hc.1, hc.2.1, hc.2.2, Nat.not_le.mpr hlt]]
    rw [parseStringLoop_plain maxLen key (acc ++ [c]) rest
      (fun d hd => hk d (by simp [hd]))
      (by simp only [List.length_append, List.length_cons, List.length_nil] at hlen ⊢; omega)]
    simp

/-- `parse_string` on a serialized `"key"` whose characters need no
escaping and fit the buffer bound. -/
theorem parse_string_key (maxLen : Nat) (key rest : List Char)
    (hk : ∀ c ∈ key, c ≠ '\x00' ∧ c ≠ '"' ∧ c ≠ '\\')
    (hlen : key.length ≤ maxLen - 1) :
    parse_string maxLen ('"' :: (key ++ '"' :: rest)) = some (key, rest) := by
  unfold parse_string
  rw [skip_whitespace_cons _ _ (by decide)]
  simp only [peekC, adv, ne_eq]
  rw [if_neg (by simp)]
  rw [parseStringLoop_plain maxLen key [] rest hk (by simpa using hlen)]
  simp [peekC, adv]

/-- Decimal value of a digit string, as `parse_int` accumulates it. -/
def decVal (ds : List Char) : Int :=
  ds.foldl (fun a c => a * 10 + ((c.toNat : Int) - 48)) 0

theorem decVal_nonneg_aux :
    ∀ (ds : List Char) (acc : Int), 0 ≤ acc → (∀ c ∈ ds, isDigit c = true) →
      0 ≤ ds.foldl (fun a c => a * 10 + ((c.toNat : Int) - 48)) acc
  | [], acc, h0, _ => h0
  | c :: ds, acc, h0, hds => by
    have hb := isDigit_toNat (hds c (by simp))
    rw [List.foldl_cons]
    exact decVal_nonneg_aux ds _ (by omega) fun d hd => hds d (by simp [hd])

theorem decVal_nonneg (ds : List Char) (hds : ∀ c ∈ ds, isDigit c = true) :
    0 ≤ decVal ds := decVal_nonneg_aux ds 0 le_rfl hds

theorem parseIntLoop_append :
    ∀ (ds : List Char) (acc : Int) (rest : List Char),
      (∀ c ∈ ds, isDigit c = true) → isDigit (peekC rest) = false →
      parseIntLoop (ds ++ rest) acc =
        (ds.foldl (fun a c => a * 10 + ((c.toNat : Int) - 48)) acc, rest)
  | [], acc, rest, _, hrest => by
    cases rest with
    | nil => rfl
    | cons c cs =>
      simp only [peekC] at hrest
      simp [parseIntLoop, hrest]
  | d :: ds, acc, rest, hds, hrest => by
    have hd : isDigit d = true := hds d (by simp)
    rw [List.cons_append,
      show parseIntLoop (d :: (ds ++ rest)) acc =
        parseIntLoop (ds ++ rest) (acc * 10 + ((d.toNat : Int) - 48)) by
          simp [parseIntLoop, hd]]
    rw [parseIntLoop_append ds _ rest (fun c hc => hds c (by simp [hc])) hrest]
    simp

/-- `parse_int` on a serialized non-empty digit string followed by a
non-digit. -/
theorem parse_int_digits (ds rest : List Char) (hne : ds ≠ [])
    (hds : ∀ c ∈ ds, isDigit c = true) (hrest : isDigit (peekC rest) = false) :
    parse_int (ds ++ rest) = (decVal ds, rest) := by
  cases ds with
  | nil => exact absurd rfl hne
  | cons d dtl =>
    have hd := hds d (by simp)
    have hf := isDigit_ne hd
    unfold parse_int
    rw [List.cons_append, skip_whitespace_cons _ _ hf.2.2.2.2.2.2.2.2.2.2]
    rw [if_neg (by simp only [peekC]; exact hf.2.2.2.2.2.2.2.2.2.1)]
    have h2 := parseIntLoop_append (d :: dtl) 0 rest hds hrest
    rw [List.cons_append] at h2
    exact h2

theorem toSizeT_small {i : Int} (h0 : 0 ≤ i) (h : i < 2 ^ 64) :
    toSizeT i = i.toNat := by
  unfold toSizeT
  rw [Int.emod_eq_of_lt h0 (by exact_mod_cast h)]

theorem usub64_wrap {a b : Nat} (hab : a < b) (hb : b < 2 ^ 64) :
    usub64 a b = 2 ^ 64 - (b - a) := by
  unfold usub64
  rw [Nat.mod_eq_of_lt hb, Nat.mod_eq_of_lt (by omega)]
  omega

/-! ## C10: unsigned wrap of `data_size = end - start` -/

/-- The serialized tensor entry `{"data_offsets":[ds,es]}`. -/
def dataOffsetsEntryChars (ds es : List Char) : List Char :=
  '{' :: '"' ::
    ("data_offsets".data ++ ('"' :: ':' :: '[' :: (ds ++ (',' :: (es ++ (']' :: '}' :: []))))))

/-- One iteration of the entry loop on a serialized `"key":` followed by
a value the dispatch handles successfully: the loop continues behind the
value with the updated tensor. -/
theorem parseEntryLoop_iter (fuel : Nat) (t t2 : Tensor) (key rest2 p5 : List Char)
    (hk : ∀ c ∈ key, c ≠ '\x00' ∧ c ≠ '"' ∧ c ≠ '\\') (hlen : key.length ≤ 63)
    (hdisp : entryDispatch t key (skip_whitespace rest2) = some (t2, p5)) :
    parseEntryLoop (fuel + 1) t ('"' :: (key ++ '"' :: ':' :: rest2)) =
      parseEntryLoop fuel t2 (endOfPair p5) := by
  rw [parseEntryLoop.eq_def]
  simp only [peekC, adv]
  rw [if_neg (by simp)]
  rw [skip_whitespace_cons _ _ (by decide)]
  simp only [peekC]
  rw [if_neg (by simp)]
  rw [parse_string_key 64 key _ hk (by omega)]
  simp only [skip_whitespace_cons ':' _ (by decide), peekC, ne_eq, adv]
  rw [if_neg (by simp)]
  rw [hdisp]

theorem skipThenChar_hit (c : Char) (cs : List Char)
    (hw : ¬(c = ' ' ∨ c = '\n' ∨ c = '\r' ∨ c = '\t')) :
    skipThenChar c (c :: cs) = cs := by
  unfold skipThenChar
  rw [skip_whitespace_cons _ _ hw]
  simp [peekC, adv]

theorem skipThenChar_miss (c d : Char) (cs : List Char)
    (hw : ¬(d = ' ' ∨ d = '\n' ∨ d = '\r' ∨ d = '\t')) (hne : d ≠ c) :
    skipThenChar c (d :: cs) = d :: cs := by
  unfold skipThenChar
  rw [skip_whitespace_cons _ _ hw]
  simp [peekC, hne]

/-- The `data_offsets` branch of the dispatch on serialized digit
strings `[ds,es]`. -/
theorem entryDispatch_data_offsets (t : Tensor) (ds es tail : List Char)
    (hdne : ds ≠ []) (hds : ∀ c ∈ ds, isDigit c = true)
    (hene : es ≠ []) (hes : ∀ c ∈ es, isDigit c = true) :
    entryDispatch t "data_offsets".data ('[' :: (ds ++ (',' :: (es ++ (']' :: tail))))) =
      some ({ t with
              data_offset := toSizeT (decVal ds)
              data_size := usub64 (toSizeT (decVal es)) (toSizeT (decVal ds)) }, tail) := by
  cases ds with
  | nil => exact absurd rfl hdne
  | cons d0 ds0 =>
  cases es with
  | nil => exact absurd rfl hene
  | cons e0 es0 =>
  have hd0 := isDigit_ne (hds d0 (by simp))
  have he0 := isDigit_ne (hes e0 (by simp))
  have hint1 := parse_int_digits (d0 :: ds0) (',' :: ((e0 :: es0) ++ (']' :: tail)))
    (by simp) hds (by simp only [peekC]; decide)
  have hint2 := parse_int_digits (e0 :: es0) (']' :: tail) (by simp) hes
    (by simp only [peekC]; decide)
  simp only [List.cons_append] at hint1 hint2
  unfold entryDispatch
  rw [if_neg (by decide), if_neg (by decide), if_pos rfl]
  simp only [peekC, ne_eq, adv, List.cons_append]
  rw [if_neg (by simp)]
  rw [skip_whitespace_cons _ _ hd0.2.2.2.2.2.2.2.2.2.2, hint1]
  rw [skipThenChar_hit ',' _ (by decide)]
  rw [skip_whitespace_cons _ _ he0.2.2.2.2.2.2.2.2.2.2, hint2]
  rw [skipThenChar_hit ']' _ (by decide)]

/-- One `data_offsets` iteration of the entry loop on serialized digit
strings, followed by the closing `}`. -/
theorem entryLoop_data_offsets (fuel : Nat) (t : Tensor) (ds es : List Char)
    (hdne : ds ≠ []) (hds : ∀ c ∈ ds, isDigit c = true)
    (hene : es ≠ []) (hes : ∀ c ∈ es, isDigit c = true) :
    parseEntryLoop (fuel + 2) t
      ('"' :: ("data_offsets".data ++
        ('"' :: ':' :: '[' :: (ds ++ (',' :: (es ++ (']' :: '}' :: []))))))) =
      some ({ t with
              data_offset := toSizeT (decVal ds)
              data_size := usub64 (toSizeT (decVal es)) (toSizeT (decVal ds)) }, []) := by
  have hdisp := entryDispatch_data_offsets t ds es ('}' :: []) hdne hds hene hes
  have hiter := parseEntryLoop_iter (fuel + 1) t _ "data_offsets".data
    ('[' :: (ds ++ (',' :: (es ++ (']' :: '}' :: []))))) _ (by decide) (by decide)
    (by rw [skip_whitespace_cons _ _ (by decide)]; exact hdisp)
  rw [show (fuel + 2) = (fuel + 1) + 1 by omega] at *
  rw [hiter]
  rw [show endOfPair ('}' :: []) = '}' :: [] from rfl]
  rw [parseEntryLoop.eq_def]
  simp [peekC, adv]

/-- C10: `data_size` is the unsigned subtraction `end - start` with no
validation that `end ≥ start`: for all decimal literals with
`end < start` (both below `2^63`, the exact range of the `int64_t`
accumulator), parsing succeeds and `data_size` wraps around modulo
`2^64` to `2^64 - (start - end)`, which is at least `2^63` — a huge
value rather than an error. -/
theorem c10_data_size_unsigned_wrap (name ds es : List Char)
    (hdne : ds ≠ []) (hds : ∀ c ∈ ds, isDigit c = true)
    (hene : es ≠ []) (hes : ∀ c ∈ es, isDigit c = true)
    (hdsb : decVal ds < 2 ^ 63) (hlt : decVal es < decVal ds) :
    parse_tensor_entry name (dataOffsetsEntryChars ds es) =
      some ({ name := name, dtype := .UNKNOWN, shape := [],
              data_offset := (decVal ds).toNat,
              data_size := 2 ^ 64 - ((decVal ds).toNat - (decVal es).toNat) }, []) ∧
    2 ^ 63 ≤ 2 ^ 64 - ((decVal ds).toNat - (decVal es).toNat) := by
  have h0d : 0 ≤ decVal ds := decVal_nonneg ds hds
  have h0e : 0 ≤ decVal es := decVal_nonneg es hes
  have hip : (decVal es).toNat < (decVal ds).toNat := by omega
  have hdp : (decVal ds).toNat < 2 ^ 63 := by omega
  constructor
  · unfold parse_tensor_entry dataOffsetsEntryChars
    rw [skip_whitespace_cons _ _ (by decide)]
    simp only [peekC, ne_eq]
    rw [if_neg (by simp)]
    simp only [adv, List.length_cons]
    have hmain := entryLoop_data_offsets
      (("data_offsets".data ++
        ('"' :: ':' :: '[' :: (ds ++ (',' :: (es ++ (']' :: '}' :: [])))))).length + 1)
      { name := name, dtype := .UNKNOWN, shape := [], data_offset := 0, data_size := 0 }
      ds es hdne hds hene hes
    rw [toSizeT_small h0d (by omega), toSizeT_small h0e (by omega),
      usub64_wrap hip (by omega)] at hmain
    exact hmain
  · omega

/-- Witness for C10 at `{"data_offsets":[100,50]}`:
`data_size = 2^64 - 50 = 18446744073709551566`. -/
theorem c10_data_size_wrap_witness :
    parse_tensor_entry "t".data (dataOffsetsEntryChars "100".data "50".data) =
      some ({ name := "t".data, dtype := .UNKNOWN, shape := [],
              data_offset := (decVal "100".data).toNat,
              data_size := 2 ^ 64 - ((decVal "100".data).toNat - (decVal "50".data).toNat) },
        []) ∧
    2 ^ 63 ≤ 2 ^ 64 - ((decVal "100".data).toNat - (decVal "50".data).toNat) :=
  c10_data_size_unsigned_wrap "t".data "100".data "50".data (by decide) (by decide)
    (by decide) (by decide) (by decide) (by decide)

/-! ## C3: shape arrays with more than 8 elements -/

/-- Comma-separated serialization of array elements, each one followed
by a comma, in front of the remaining text. -/
def serEls (ds : List (List Char)) (tail : List Char) : List Char :=
  ds.foldr (fun d acc => d ++ ',' :: acc) tail

/-- Well-formed digit-string elements. -/
def digitEls (ds : List (List Char)) : Prop :=
  ∀ d ∈ ds, d ≠ [] ∧ ∀ c ∈ d, isDigit c = true

instance (ds : List (List Char)) : Decidable (digitEls ds) := by
  unfold digitEls
  infer_instance

/-- The shape-element loop consumes one serialized element (and its
trailing comma) per slot. -/
theorem parseShapeLoop_consume :
    ∀ (ds : List (List Char)) (slots : Nat) (acc : List Int) (tail : List Char),
      ds.length ≤ slots → digitEls ds →
      parseShapeLoop slots acc (serEls ds tail) =
        parseShapeLoop (slots - ds.length) (acc ++ ds.map decVal) tail
  | [], slots, acc, tail, _, _ => by simp [serEls]
  | d :: ds', slots, acc, tail, hlen, hels => by
    obtain ⟨hdne, hdig⟩ := hels d (by simp)
    cases d with
    | nil => exact absurd rfl hdne
    | cons c0 ctl =>
    cases slots with
    | zero => simp at hlen
    | succ s =>
      have hc0 := isDigit_ne (hdig c0 (by simp))
      have hint := parse_int_digits (c0 :: ctl) (',' :: serEls ds' tail) (by simp) hdig
        (by simp only [peekC]; decide)
      simp only [List.cons_append] at hint
      rw [show serEls ((c0 :: ctl) :: ds') tail =
        (c0 :: ctl) ++ (',' :: serEls ds' tail) from rfl]
      rw [parseShapeLoop.eq_def]
      simp only [List.cons_append, peekC]
      rw [if_neg (by simp [hc0.1, hc0.2.2.2.2.2.2.1])]
      rw [skip_whitespace_cons _ _ hc0.2.2.2.2.2.2.2.2.2.2]
      simp only [peekC]
      rw [if_neg (by simp [hc0.2.2.2.2.2.2.1])]
      rw [hint, skipThenChar_hit ',' _ (by decide)]
      rw [parseShapeLoop_consume ds' s (acc ++ [decVal (c0 :: ctl)]) tail
        (by simpa using Nat.le_of_succ_le_succ hlen) fun d hd => hels d (by simp [hd])]
      simp [Nat.succ_sub_succ]

/-- The `shape` branch of the dispatch on an array of more than 8
serialized elements: the first 8 are stored, and the parser is left at
the 9th element — the closing `]` is never consumed. -/
theorem entryDispatch_shape_overflow (t : Tensor) (ds : List (List Char)) (d9 rest : List Char)
    (hlen : ds.length = 8) (hels : digitEls ds)
    (h9ne : d9 ≠ []) (h9 : ∀ c ∈ d9, isDigit c = true) :
    entryDispatch t "shape".data ('[' :: serEls ds (d9 ++ rest)) =
      some ({ t with shape := ds.map decVal }, d9 ++ rest) := by
  cases d9 with
  | nil => exact absurd rfl h9ne
  | cons c9 c9tl =>
  have hc9 := isDigit_ne (h9 c9 (by simp))
  unfold entryDispatch
  rw [if_neg (by decide), if_pos rfl]
  simp only [peekC, ne_eq, adv]
  rw [if_neg (by simp)]
  rw [parseShapeLoop_consume ds 8 [] ((c9 :: c9tl) ++ rest) (by omega) hels]
  rw [hlen]
  rw [parseShapeLoop.eq_def]
  simp only [List.cons_append, peekC]
  rw [if_neg (by simp [hc9.2.2.2.2.2.2.1])]
  simp

/-- Any entry-loop iteration starting at a digit fails: the C loop
expects a quoted key and `parse_string` rejects a digit. -/
theorem parseEntryLoop_digit_head_fails (fuel : Nat) (t : Tensor) (d0 : Char)
    (rest : List Char) (hd : isDigit d0 = true) :
    parseEntryLoop fuel t (d0 :: rest) = none := by
  have hf := isDigit_ne hd
  cases fuel with
  | zero => rfl
  | succ f =>
    rw [parseEntryLoop.eq_def]
    simp only [peekC]
    rw [if_neg (by simp [hf.1, hf.2.2.2.2.1])]
    rw [skip_whitespace_cons _ _ hf.2.2.2.2.2.2.2.2.2.2]
    simp only [peekC]
    rw [if_neg (by simp [hf.2.2.2.2.1])]
    rw [show parse_string 64 (d0 :: rest) = none by
      unfold parse_string
      rw [skip_whitespace_cons _ _ hf.2.2.2.2.2.2.2.2.2.2]
      simp [peekC, hf.2.1]]

/-- The serialized tensor entry `{"shape":[…]}` whose element list is
`ds` followed by a 9th element `d9` and arbitrary remaining text. -/
def shapeOverflowEntryChars (ds : List (List Char)) (d9 rest : List Char) : List Char :=
  '{' :: '"' :: ("shape".data ++ ('"' :: ':' :: '[' :: serEls ds (d9 ++ rest)))

/-- C3 (amended): for every shape array with more than 8 elements, the
parser stores the first 8 but leaves the input at the 9th element — the
extras and the closing `]` are never consumed — so `parse_tensor_entry`
fails (returns the C code's `-1`) instead of succeeding with a truncated
shape. -/
theorem c3_shape_overflow_entry_fails (name : List Char) (ds : List (List Char))
    (d9 rest : List Char) (hlen : ds.length = 8) (hels : digitEls ds)
    (h9ne : d9 ≠ []) (h9 : ∀ c ∈ d9, isDigit c = true) :
    parse_tensor_entry name (shapeOverflowEntryChars ds d9 rest) = none := by
  cases d9 with
  | nil => exact absurd rfl h9ne
  | cons c9 c9tl =>
  have hc9 := isDigit_ne (h9 c9 (by simp))
  have hdisp := entryDispatch_shape_overflow
    { name := name, dtype := .UNKNOWN, shape := [], data_offset := 0, data_size := 0 }
    ds (c9 :: c9tl) rest hlen hels (by simp) h9
  unfold parse_tensor_entry shapeOverflowEntryChars
  rw [skip_whitespace_cons _ _ (by decide)]
  simp only [peekC, ne_eq]
  rw [if_neg (by simp)]
  simp only [adv, List.length_cons]
  rw [parseEntryLoop_iter _ _ _ "shape".data ('[' :: serEls ds ((c9 :: c9tl) ++ rest)) _
    (by decide) (by decide)
    (by rw [skip_whitespace_cons _ _ (by decide)]; exact hdisp)]
  rw [show endOfPair ((c9 :: c9tl) ++ rest) = (c9 :: c9tl) ++ rest by
    unfold endOfPair
    rw [List.cons_append,
      skipThenChar_miss ',' c9 _ hc9.2.2.2.2.2.2.2.2.2.2 hc9.2.2.2.2.2.2.2.1]]
  rw [List.cons_append]
  exact parseEntryLoop_digit_head_fails _ _ c9 _ (h9 c9 (by simp))

/-- C3 (counterexample to the claim as stated): the concrete 9-element
shape `[1,2,3,4,5,6,7,8,9]` makes `parse_tensor_entry` fail (it does not
truncate and succeed), and a header containing that entry followed by
another entry fails entirely. -/
theorem c3_nine_element_shape_fails_concrete :
    parse_tensor_entry "t".data "\x7b\"shape\":[1,2,3,4,5,6,7,8,9]\x7d".data = none ∧
    parse_header 100 "\x7b\"t\":\x7b\"shape\":[1,2,3,4,5,6,7,8,9]\x7d,\"u\":\x7b\"dtype\":\"F32\"\x7d\x7d".data =
      none := by
  constructor
  · decide
  · decide

/-- Witness for the amended C3 at the concrete shape
`[1,2,3,4,5,6,7,8,9]`. -/
theorem c3_shape_overflow_witness :
    parse_tensor_entry "t".data
      (shapeOverflowEntryChars
        ["1".data, "2".data, "3".data, "4".data, "5".data, "6".data, "7".data, "8".data]
        "9".data (']' :: '}' :: [])) = none :=
  c3_shape_overflow_entry_fails "t".data
    ["1".data, "2".data, "3".data, "4".data, "5".data, "6".data, "7".data, "8".data]
    "9".data (']' :: '}' :: []) (by decide) (by decide) (by decide) (by decide)

/-! ## C8: structural skipping of unknown values -/

/-- Characters that may appear bare in an atom token (digits, letters,
signs …): nothing the skip loop treats specially, and no whitespace. -/
def plainChar (c : Char) : Prop :=
  c ≠ '\x00' ∧ c ≠ '"' ∧ c ≠ '\\' ∧ c ≠ '{' ∧ c ≠ '[' ∧ c ≠ '}' ∧ c ≠ ']' ∧ c ≠ ',' ∧
    ¬(c = ' ' ∨ c = '\n' ∨ c = '\r' ∨ c = '\t')

instance (c : Char) : Decidable (plainChar c) := by
  unfold plainChar
  infer_instance

mutual
/-- An arbitrary JSON value: an atom token, a string, an array, or an
object. -/
inductive JVal
  | atom (s : List Char)
  | jstr (s : List Char)
  | arr (l : JList)
  | obj (l : JObj)
/-- Array elements. -/
inductive JList
  | nil
  | cons (v : JVal) (tl : JList)
/-- Object fields. -/
inductive JObj
  | onil
  | ocons (k : List Char) (v : JVal) (tl : JObj)
end

/-- JSON string escaping of one character (quotes and backslashes get a
backslash; everything else is emitted verbatim). -/
def escCh (c : Char) : List Char := if c = '"' ∨ c = '\\' then ['\\', c] else [c]

/-- JSON string escaping of a character sequence. -/
def escStr (s : List Char) : List Char := s.foldr (fun c acc => escCh c ++ acc) []

mutual
/-- Serialization of a JSON value. -/
def serV : JVal → List Char
  | .atom s => s
  | .jstr s => '"' :: (escStr s ++ ['"'])
  | .arr l => '[' :: (serL l ++ [']'])
  | .obj l => '{' :: (serO l ++ ['}'])
/-- Serialization of array elements (comma-separated). -/
def serL : JList → List Char
  | .nil => []
  | .cons v tl => serV v ++ serLtail tl
/-- Serialization of the non-first array elements. -/
def serLtail : JList → List Char
  | .nil => []
  | .cons v tl => ',' :: (serV v ++ serLtail tl)
/-- Serialization of object fields (comma-separated `"key":value`). -/
def serO : JObj → List Char
  | .onil => []
  | .ocons k v tl => '"' :: (escStr k ++ ('"' :: ':' :: (serV v ++ serOtail tl)))
/-- Serialization of the non-first object fields. -/
def serOtail : JObj → List Char
  | .onil => []
  | .ocons k v tl => ',' :: '"' :: (escStr k ++ ('"' :: ':' :: (serV v ++ serOtail tl)))
end

mutual
/-- Well-formed values: atoms hold only plain characters, string and key
contents hold no NUL byte (any other character, including quotes,
backslashes and brackets, is fine — escaping handles them). -/
inductive WfV : JVal → Prop
  | atom {s} : (∀ c ∈ s, plainChar c) → WfV (.atom s)
  | jstr {s} : (∀ c ∈ s, c ≠ '\x00') → WfV (.jstr s)
  | arr {l} : WfL l → WfV (.arr l)
  | obj {l} : WfO l → WfV (.obj l)
inductive WfL : JList → Prop
  | nil : WfL .nil
  | cons {v tl} : WfV v → WfL tl → WfL (.cons v tl)
inductive WfO : JObj → Prop
  | onil : WfO .onil
  | ocons {k v tl} : (∀ c ∈ k, c ≠ '\x00') → WfV v → WfO tl → WfO (.ocons k v tl)
end

/-! Single-character steps of the skip loop. -/

theorem skipValue_quote_open (d : Nat) (rest : List Char) :
    skipValue ('"' :: rest) d false = skipValue rest d true := by
  rw [skipValue.eq_def]
  simp

theorem skipValue_open_bracket (d : Nat) (rest : List Char) :
    skipValue ('[' :: rest) d false = skipValue rest (d + 1) false := by
  rw [skipValue.eq_def]
  simp

theorem skipValue_open_brace (d : Nat) (rest : List Char) :
    skipValue ('{' :: rest) d false = skipValue rest (d + 1) false := by
  rw [skipValue.eq_def]
  simp

theorem skipValue_close_bracket (d : Nat) (rest : List Char) :
    skipValue (']' :: rest) (d + 1) false = skipValue rest d false := by
  rw [skipValue.eq_def]
  simp

theorem skipValue_close_brace (d : Nat) (rest : List Char) :
    skipValue ('}' :: rest) (d + 1) false = skipValue rest d false := by
  rw [skipValue.eq_def]
  simp

theorem skipValue_comma_deep (d : Nat) (rest : List Char) :
    skipValue (',' :: rest) (d + 1) false = skipValue rest (d + 1) false := by
  rw [skipValue.eq_def]
  simp

theorem skipValue_colon (d : Nat) (rest : List Char) :
    skipValue (':' :: rest) d false = skipValue rest d false := by
  rw [skipValue.eq_def]
  simp

theorem skipValue_comma_break (rest : List Char) :
    skipValue (',' :: rest) 0 false = ',' :: rest := by
  rw [skipValue.eq_def]
  simp

theorem skipValue_close_brace_break (rest : List Char) :
    skipValue ('}' :: rest) 0 false = '}' :: rest := by
  rw [skipValue.eq_def]
  simp

theorem skipValue_norm_plainc (c : Char) (hp : plainChar c) (d : Nat) (cs : List Char) :
    skipValue (c :: cs) d false = skipValue cs d false := by
  obtain ⟨h0, hq, hb, hob, hok, hcb, hck, hcm, hws⟩ := hp
  rw [skipValue.eq_def]
  simp [h0, hq, hob, hok, hcb, hck, hcm]

theorem skipValue_str_escape (c : Char) (h0 : c ≠ '\x00') (d : Nat) (cs : List Char) :
    skipValue ('\\' :: c :: cs) d true = skipValue cs d true := by
  rw [skipValue.eq_def]
  simp [peekC, h0]

theorem skipValue_str_plainc (c : Char) (h0 : c ≠ '\x00') (hb : c ≠ '\\') (hq : c ≠ '"')
    (d : Nat) (cs : List Char) :
    skipValue (c :: cs) d true = skipValue cs d true := by
  rw [skipValue.eq_def]
  simp [h0, hb, hq]

theorem skipValue_str_close (d : Nat) (cs : List Char) :
    skipValue ('"' :: cs) d true = skipValue cs d false := by
  rw [skipValue.eq_def]
  simp

/-- The skip loop passes over atom characters without changing state. -/
theorem skipValue_plain :
    ∀ (s : List Char) (d : Nat) (rest : List Char), (∀ c ∈ s, plainChar c) →
      skipValue (s ++ rest) d false = skipValue rest d false
  | [], _, _, _ => rfl
  | c :: s, d, rest, h => by
    rw [List.cons_append, skipValue_norm_plainc c (h c (by simp))]
    exact skipValue_plain s d rest fun e he => h e (by simp [he])

/-- In string mode the skip loop consumes an escaped string body and its
closing quote, returning to normal mode. -/
theorem skipValue_escStr :
    ∀ (s : List Char) (d : Nat) (rest : List Char), (∀ c ∈ s, c ≠ '\x00') →
      skipValue (escStr s ++ ('"' :: rest)) d true = skipValue rest d false
  | [], d, rest, _ => by
    rw [show escStr [] = [] from rfl, List.nil_append, skipValue_str_close]
  | c :: s, d, rest, h => by
    have h0 := h c (by simp)
    rw [show escStr (c :: s) = escCh c ++ escStr s from rfl, List.append_assoc]
    by_cases hc : c = '"' ∨ c = '\\'
    · rw [show escCh c = ['\\', c] by simp [escCh, hc]]
      rw [List.cons_append, List.cons_append, List.nil_append,
        skipValue_str_escape c h0]
      exact skipValue_escStr s d rest fun e he => h e (by simp [he])
    · rw [show escCh c = [c] by simp [escCh, hc]]
      rw [List.cons_append, List.nil_append,
        skipValue_str_plainc c h0 (fun he => hc (Or.inr he)) (fun he => hc (Or.inl he))]
      exact skipValue_escStr s d rest fun e he => h e (by simp [he])

mutual
/-- The skip loop consumes a serialized well-formed value at any depth,
in normal mode, without changing state. -/
theorem skipValue_serV :
    ∀ (v : JVal), WfV v → ∀ (d : Nat) (rest : List Char),
      skipValue (serV v ++ rest) d false = skipValue rest d false
  | .atom s, hv, d, rest => by
    cases hv with
    | atom h => exact skipValue_plain s d rest h
  | .jstr s, hv, d, rest => by
    cases hv with
    | jstr h =>
      rw [show serV (.jstr s) = '"' :: (escStr s ++ ['"']) from rfl]
      rw [List.cons_append, skipValue_quote_open, List.append_assoc,
        List.singleton_append]
      exact skipValue_escStr s d rest h
  | .arr l, hv, d, rest => by
    cases hv with
    | arr hl =>
      rw [show serV (.arr l) = '[' :: (serL l ++ [']']) from rfl]
      rw [List.cons_append, skipValue_open_bracket, List.append_assoc,
        List.singleton_append]
      cases l with
      | nil =>
        rw [show serL .nil = [] from rfl, List.nil_append, skipValue_close_bracket]
      | cons v tl =>
        cases hl with
        | cons hv2 htl =>
          rw [show serL (.cons v tl) = serV v ++ serLtail tl from rfl, List.append_assoc]
          rw [skipValue_serV v hv2 (d + 1), skipValue_serLtail tl htl d,
            skipValue_close_bracket]
  | .obj l, hv, d, rest => by
    cases hv with
    | obj hl =>
      rw [show serV (.obj l) = '{' :: (serO l ++ ['}']) from rfl]
      rw [List.cons_append, skipValue_open_brace, List.append_assoc,
        List.singleton_append]
      cases l with
      | onil =>
        rw [show serO .onil = [] from rfl, List.nil_append, skipValue_close_brace]
      | ocons k v tl =>
        cases hl with
        | ocons hk hv2 htl =>
          rw [show serO (.ocons k v tl) =
            '"' :: (escStr k ++ ('"' :: ':' :: (serV v ++ serOtail tl))) from rfl]
          rw [List.cons_append, skipValue_quote_open, List.append_assoc]
          rw [show ('"' :: ':' :: (serV v ++ serOtail tl)) ++ ('}' :: rest) =
            '"' :: (':' :: ((serV v ++ serOtail tl) ++ ('}' :: rest))) from rfl]
          rw [skipValue_escStr k (d + 1) _ hk, skipValue_colon, List.append_assoc]
          rw [skipValue_serV v hv2 (d + 1), skipValue_serOtail tl htl d,
            skipValue_close_brace]

/-- The skip loop consumes trailing serialized array elements at
positive depth. -/
theorem skipValue_serLtail :
    ∀ (l : JList), WfL l → ∀ (d : Nat) (rest : List Char),
      skipValue (serLtail l ++ rest) (d + 1) false = skipValue rest (d + 1) false
  | .nil, _, _, _ => rfl
  | .cons v tl, hl, d, rest => by
    cases hl with
    | cons hv htl =>
      rw [show serLtail (.cons v tl) = ',' :: (serV v ++ serLtail tl) from rfl]
      rw [List.cons_append, skipValue_comma_deep, List.append_assoc]
      rw [skipValue_serV v hv (d + 1), skipValue_serLtail tl htl d]

/-- The skip loop consumes trailing serialized object fields at positive
depth. -/
theorem skipValue_serOtail :
    ∀ (l : JObj), WfO l → ∀ (d : Nat) (rest : List Char),
      skipValue (serOtail l ++ rest) (d + 1) false = skipValue rest (d + 1) false
  | .onil, _, _, _ => rfl
  | .ocons k v tl, hl, d, rest => by
    cases hl with
    | ocons hk hv htl =>
      rw [show serOtail (.ocons k v tl) =
        ',' :: '"' :: (escStr k ++ ('"' :: ':' :: (serV v ++ serOtail tl))) from rfl]
      rw [List.cons_append, List.cons_append, skipValue_comma_deep,
        skipValue_quote_open, List.append_assoc]
      rw [show ('"' :: ':' :: (serV v ++ serOtail tl)) ++ rest =
        '"' :: (':' :: ((serV v ++ serOtail tl) ++ rest)) from rfl]
      rw [skipValue_escStr k (d + 1) _ hk, skipValue_colon, List.append_assoc]
      rw [skipValue_serV v hv (d + 1), skipValue_serOtail tl htl d]
end

/-- Leading whitespace skipping is a no-op in front of a serialized
value (and in front of the following delimiter when the value is an
empty atom). -/
theorem skip_whitespace_serV (v : JVal) (hv : WfV v) (c : Char) (rest : List Char)
    (hc : ¬(c = ' ' ∨ c = '\n' ∨ c = '\r' ∨ c = '\t')) :
    skip_whitespace (serV v ++ c :: rest) = serV v ++ c :: rest := by
  cases v with
  | atom s =>
    cases hv with
    | atom h =>
      cases s with
      | nil => simpa using skip_whitespace_cons c rest hc
      | cons a s2 =>
        have hp := h a (by simp)
        rw [show serV (.atom (a :: s2)) = a :: s2 from rfl, List.cons_append,
          skip_whitespace_cons _ _ hp.2.2.2.2.2.2.2.2]
  | jstr s =>
    rw [show serV (.jstr s) = '"' :: (escStr s ++ ['"']) from rfl, List.cons_append,
      skip_whitespace_cons _ _ (by decide)]
  | arr l =>
    rw [show serV (.arr l) = '[' :: (serL l ++ [']']) from rfl, List.cons_append,
      skip_whitespace_cons _ _ (by decide)]
  | obj l =>
    rw [show serV (.obj l) = '{' :: (serO l ++ ['}']) from rfl, List.cons_append,
      skip_whitespace_cons _ _ (by decide)]

/-- The unknown-key branch of the dispatch: the value is skipped
structurally and the tensor is unchanged. -/
theorem entryDispatch_unknown (t : Tensor) (key p4 : List Char)
    (hk1 : key ≠ "dtype".data) (hk2 : key ≠ "shape".data)
    (hk3 : key ≠ "data_offsets".data) :
    entryDispatch t key p4 = some (t, skipValue p4 0 false) := by
  unfold entryDispatch
  rw [if_neg hk1, if_neg hk2, if_neg hk3]

/-- C8: a tensor entry pair `"key": value` whose key is unknown and
whose value is an arbitrary well-formed JSON value (nested objects,
arrays, strings with escaped quotes and bracket characters) is skipped
structurally: the entry loop continues at the following pair exactly as
if it had started there (first conjunct), and when the unknown pair is
the last one the entry finishes normally (second conjunct) — parsing of
all subsequent keys and entries is unaffected. -/
theorem c8_unknown_key_skipped_structurally (fuel : Nat) (t : Tensor)
    (key rest : List Char) (v : JVal) (hv : WfV v)
    (hk : ∀ c ∈ key, c ≠ '\x00' ∧ c ≠ '"' ∧ c ≠ '\\') (hklen : key.length ≤ 63)
    (hk1 : key ≠ "dtype".data) (hk2 : key ≠ "shape".data)
    (hk3 : key ≠ "data_offsets".data) :
    parseEntryLoop (fuel + 1) t ('"' :: (key ++ '"' :: ':' :: (serV v ++ ',' :: rest))) =
      parseEntryLoop fuel t rest ∧
    parseEntryLoop (fuel + 2) t ('"' :: (key ++ '"' :: ':' :: (serV v ++ '}' :: rest))) =
      some (t, rest) := by
  constructor
  · rw [parseEntryLoop_iter fuel t t key (serV v ++ ',' :: rest) (',' :: rest) hk hklen
      (by
        rw [skip_whitespace_serV v hv ',' rest (by decide),
          entryDispatch_unknown t key _ hk1 hk2 hk3, skipValue_serV v hv 0,
          skipValue_comma_break])]
    rw [show endOfPair (',' :: rest) = rest by
      unfold endOfPair
      rw [skipThenChar_hit ',' _ (by decide)]]
  · rw [show fuel + 2 = (fuel + 1) + 1 from rfl]
    rw [parseEntryLoop_iter (fuel + 1) t t key (serV v ++ '}' :: rest) ('}' :: rest) hk hklen
      (by
        rw [skip_whitespace_serV v hv '}' rest (by decide),
          entryDispatch_unknown t key _ hk1 hk2 hk3, skipValue_serV v hv 0,
          skipValue_close_brace_break])]
    rw [show endOfPair ('}' :: rest) = '}' :: rest by
      unfold endOfPair
      rw [skipThenChar_miss ',' '}' _ (by decide) (by decide)]]
    rw [parseEntryLoop.eq_def]
    simp [peekC, adv]

/-- A deeply nested unknown value:
`{"a":["x\"[\x7dy",12,{"b":[]}],"c":{}}`. -/
def c8Val : JVal :=
  .obj (.ocons "a".data
    (.arr (.cons (.jstr "x\"[\x7dy".data)
      (.cons (.atom "12".data)
        (.cons (.obj (.ocons "b".data (.arr .nil) .onil)) .nil))))
    (.ocons "c".data (.obj .onil) .onil))

theorem c8Val_wf : WfV c8Val :=
  .obj (.ocons (by decide)
    (.arr (.cons (.jstr (by decide))
      (.cons (.atom (by decide))
        (.cons (.obj (.ocons (by decide) (.arr .nil) .onil)) .nil))))
    (.ocons (by decide) (.obj .onil) .onil))

def c8Tensor : Tensor :=
  { name := "t".data, dtype := .BF16, shape := [2, 2], data_offset := 0, data_size := 16 }

/-- Witness for C8 at the unknown key `custom` with the nested value
`c8Val`, in the middle and at the end of an entry. -/
theorem c8_unknown_key_witness :
    parseEntryLoop (2 + 1) c8Tensor
      ('"' :: ("custom".data ++ '"' :: ':' :: (serV c8Val ++ ',' :: "\"q\":1\x7d".data))) =
      parseEntryLoop 2 c8Tensor "\"q\":1\x7d".data ∧
    parseEntryLoop (2 + 2) c8Tensor
      ('"' :: ("custom".data ++ '"' :: ':' :: (serV c8Val ++ '}' :: []))) =
      some (c8Tensor, []) :=
  ⟨(c8_unknown_key_skipped_structurally 2 c8Tensor "custom".data "\"q\":1\x7d".data
      c8Val c8Val_wf (by decide) (by decide) (by decide) (by decide) (by decide)).1,
   (c8_unknown_key_skipped_structurally 2 c8Tensor "custom".data [] c8Val c8Val_wf
      (by decide) (by decide) (by decide) (by decide) (by decide)).2⟩

end QwenST
